import Mathlib

/-!
# Shallow embedding of the GeneticFramework evolutionary-algorithm core

This file models the core of the GeneticFramework repository
(package `genetic_framework`: `individual.py`, `selectors.py`, `utils.py`,
`population.py`, `experiment.py`) as executable Lean definitions, and proves
properties of those definitions.

Modelling conventions:
* Python floats are modelled as rationals (`ℚ`); every float operation the
  studied code performs on fitness values is an order comparison, an
  arithmetic operation on small values, or an exact-equality test, so the
  algorithms are faithfully represented.
* CPython's `list.sort(key=..., reverse=...)` is stable (also with
  `reverse=True`, which reverses each comparison but keeps equal elements in
  their original order).  It is modelled by a stable insertion sort
  (`pySort`): for a fixed total preorder on keys every stable sort produces
  the same output list.
* Python indexing that can raise `IndexError`, and `statistics.mean` on an
  empty list, are modelled with `Option`; attribute lookup that can raise
  `AttributeError` is modelled with `Except String`.
* Randomness (`random.random`, `random.randint`, `random.shuffle`) is made
  explicit: each randomized operation takes the stream of random draws it
  consumes as a parameter.
-/

namespace GF

/-- Stable insertion of `x` into `l`: `x` is placed after every element `y`
with `le y x`, so elements that compare equal keep their original relative
order (the later-arriving element ends up last). -/
def stableInsert {α : Type} (le : α → α → Bool) (x : α) : List α → List α
  | [] => [x]
  | y :: ys => if le y x then y :: stableInsert le x ys else x :: y :: ys

/-- Stable sort by left-to-right repeated insertion. -/
def stableSort {α : Type} (le : α → α → Bool) (l : List α) : List α :=
  l.foldl (fun acc x => stableInsert le x acc) []

/-- `l.sort(key=key, reverse=reverse)` (CPython): stable, ascending by `key`
when `reverse` is false, descending when `reverse` is true. -/
def pySort {α : Type} (key : α → ℚ) (reverse : Bool) (l : List α) : List α :=
  stableSort (fun a b =>
    if reverse then decide (key b ≤ key a) else decide (key a ≤ key b)) l

/-! ## `selectors.py`: `BestFitnessMatingSelector` -/

namespace BestFitnessMatingSelector

/-- The pair-building loop
`for i in range(0, 2*num_pairs, 2): pairs.append((population[i], population[i+1]))`,
with the running start index `i` explicit and Python indexing modelled as
`Option` (`none` = `IndexError`). -/
def pairLoop {α : Type} (l : List α) : Nat → Nat → Option (List (α × α))
  | _, 0 => some []
  | i, n + 1 => do
    let a ← l[i]?
    let b ← l[i + 1]?
    let rest ← pairLoop l (i + 2) n
    pure ((a, b) :: rest)

/-- `BestFitnessMatingSelector.select_couples(population, num_pairs,
maximize_fitness)`: sorts the caller's population list in place by fitness
(`reverse=maximize_fitness`), returns `[]` for populations of size ≤ 1, and
otherwise pairs consecutive entries of the sorted list.  The result is
`(couples or IndexError, the population list as left after the call)`. -/
def selectCouples {α : Type} (fit : α → ℚ) (population : List α) (numPairs : Nat)
    (maximizeFitness : Bool) : Option (List (α × α)) × List α :=
  let sorted := pySort fit maximizeFitness population
  if sorted.length ≤ 1 then (some [], sorted)
  else (pairLoop sorted 0 numPairs, sorted)

end BestFitnessMatingSelector

/-! ## `selectors.py`: `BestFitnessSurvivorSelector` -/

namespace BestFitnessSurvivorSelector

/-- The `while i + j < population_size` merge loop of `select_survivors`, with
the remaining budget `population_size - (i + j)` as the first argument and the
two lists represented by their unconsumed suffixes.  The branches mirror the
source exactly; in particular, on equal fitness the source appends `breed[j]`
but increments `i` (the parents index). -/
def mergeLoop {α : Type} (fit : α → ℚ) : Nat → List α → List α → List α
  | 0, _, _ => []
  | _ + 1, [], [] => []
  | n + 1, [], b :: bs => b :: mergeLoop fit n [] bs
  | n + 1, p :: ps, [] => p :: mergeLoop fit n ps []
  | n + 1, p :: ps, b :: bs =>
    if fit p < fit b then b :: mergeLoop fit n (p :: ps) bs
    else if fit b < fit p then p :: mergeLoop fit n ps (b :: bs)
    else b :: mergeLoop fit n ps (b :: bs)

/-- `BestFitnessSurvivorSelector.select_survivors(population_size, parents,
breed, maximize_fitness)`: sorts both lists in place
(`reverse=maximize_fitness`), then runs the two-pointer loop above. -/
def selectSurvivors {α : Type} (fit : α → ℚ) (populationSize : Nat)
    (parents breed : List α) (maximizeFitness : Bool) : List α :=
  mergeLoop fit populationSize
    (pySort fit maximizeFitness parents) (pySort fit maximizeFitness breed)

end BestFitnessSurvivorSelector

/-! ## `utils.py`: `Roulette` -/

namespace Roulette

/-- `Roulette.Item`: an individual together with its (accumulated)
`acc_probability`. -/
structure Item (α : Type) where
  individual : α
  acc : ℚ

/-- The accumulation pass
`for i in range(1, len(items)): items[i].acc_probability += items[i-1].acc_probability`:
each item's `acc` becomes the running sum of the raw values up to it
(`prev` is the already-updated predecessor, `0` for the first item). -/
def accumulate {α : Type} (prev : ℚ) : List (Item α) → List (Item α)
  | [] => []
  | it :: rest => { it with acc := it.acc + prev } :: accumulate (it.acc + prev) rest

/-- `Roulette.__init__(population, replacement)`: sorts the caller's
population list in place by fitness **descending** (`reverse=True`,
unconditionally), builds one item per individual whose initial
`acc_probability` is the individual's raw fitness, then prefix-accumulates.
Both call sites in `selectors.py` pass `maximize_fitness` as the second
positional argument, so it lands in `replacement`; neither `replacement` nor
any direction flag influences the weights.  Returns
`(items, the population list as left after the call)`. -/
def init {α : Type} (fit : α → ℚ) (population : List α) (replacement : Bool) :
    List (Item α) × List α :=
  let sorted := pySort fit true population
  (accumulate 0 (sorted.map (fun x => ⟨x, fit x⟩)), sorted)

/-- `next(item for item in self._items if r <= item.acc_probability)` combined
with `self._items.remove(selected_item)`: `remove` deletes the first element
`==` the selected item, and default object equality is identity, so exactly
the element found by the scan is deleted.  `none` models `StopIteration`. -/
def selectScan {α : Type} (r : ℚ) : List (Item α) → Option (Item α × List (Item α))
  | [] => none
  | it :: rest =>
    if r ≤ it.acc then some (it, rest)
    else (selectScan r rest).map (fun p => (p.1, it :: p.2))

/-- `Roulette.get_individual()`, driven by `u` (the `random()` draw, a value
in `[0,1)`) and `k` (consumed by the `randint(0, len(self._items) - 1)`
fallback that fires when no accumulated bucket captures `r`, e.g. when every
fitness is `0.0`).  The selected item is removed from the item list in both
paths.  `none` models the `IndexError` raised by `self._items[-1]` on an
empty item list. -/
def getIndividual {α : Type} (items : List (Item α)) (u : ℚ) (k : Nat) :
    Option (α × List (Item α)) :=
  match items.getLast? with
  | none => none
  | some last =>
    let r := u * last.acc
    match selectScan r items with
    | some (it, rest) => some (it.individual, rest)
    | none =>
      let idx := k % items.length
      match items[idx]? with
      | some it => some (it.individual, items.eraseIdx idx)
      | none => none

/-- `[roulette.get_individual() for _ in range(n)]`, threading the shrinking
item list; `us`/`ks` supply the successive random draws. -/
def drawN {α : Type} (us : Nat → ℚ) (ks : Nat → Nat) :
    Nat → List (Item α) → Option (List α)
  | 0, _ => some []
  | n + 1, items =>
    match getIndividual items (us 0) (ks 0) with
    | none => none
    | some (x, rest) =>
      (drawN (fun i => us (i + 1)) (fun i => ks (i + 1)) n rest).map (x :: ·)

/-- Derived, for stating weight claims: the width `acc_i - acc_{i-1}` of each
item's bucket, i.e. the length of the sub-interval of `[0, total)` on which
the scan in `get_individual` selects that item on a fresh item list. -/
def itemSpans {α : Type} (prev : ℚ) : List (Item α) → List (α × ℚ)
  | [] => []
  | it :: rest => (it.individual, it.acc - prev) :: itemSpans it.acc rest

/-- Total bucket width owned by the individual `x`. -/
def spanOf {α : Type} [DecidableEq α] (items : List (Item α)) (x : α) : ℚ :=
  (((itemSpans 0 items).filter (fun p => p.1 = x)).map (fun p => p.2)).sum

end Roulette

/-! ## `selectors.py`: `RouletteSurvivorSelector` -/

namespace RouletteSurvivorSelector

/-- `RouletteSurvivorSelector.select_survivors`: builds
`Roulette(parents + breed, maximize_fitness)` (so `maximize_fitness` fills the
`replacement` parameter) and draws `population_size` individuals. -/
def selectSurvivors {α : Type} (fit : α → ℚ) (populationSize : Nat)
    (parents breed : List α) (maximizeFitness : Bool)
    (us : Nat → ℚ) (ks : Nat → Nat) : Option (List α) :=
  Roulette.drawN us ks populationSize (Roulette.init fit (parents ++ breed) maximizeFitness).1

end RouletteSurvivorSelector

/-! ## `selectors.py`: `GenerationalSurvivorSelector` -/

namespace GenerationalSurvivorSelector

/-- `statistics.mean`: arithmetic mean, raising (`none`) on an empty list. -/
def pyMean (l : List ℚ) : Option ℚ :=
  if l.length = 0 then none else some (l.sum / l.length)

/-- `GenerationalSurvivorSelector.select_survivors`: scores each candidate in
`parents + breed` by `(fitness / avg_fitness) * (generation / avg_gen)`
(substituting `1.0` for a zero mean), sorts by score
(`reverse=maximize_fitness`), and keeps the first `population_size`. -/
def selectSurvivors {α : Type} (fit : α → ℚ) (gen : α → ℚ) (populationSize : Nat)
    (parents breed : List α) (maximizeFitness : Bool) : Option (List α) := do
  let newGeneration := parents ++ breed
  let avgGen0 ← pyMean (newGeneration.map gen)
  let avgGen := if avgGen0 = 0 then 1 else avgGen0
  let avgFitness0 ← pyMean (newGeneration.map fit)
  let avgFitness := if avgFitness0 = 0 then 1 else avgFitness0
  let score := fun ind => (fit ind / avgFitness) * (gen ind / avgGen)
  pure ((pySort score maximizeFitness newGeneration).take populationSize)

end GenerationalSurvivorSelector

/-! ## `selectors.py`: `KBestFitnessSolutionSelector` -/

namespace KBestFitnessSolutionSelector

/-- The two-pointer merge loop of `update_individuals`, with the remaining
budget `number_solutions - len(new_best_individuals)` as fuel and the two
sorted lists represented by their unconsumed suffixes (`pop` is the sorted
population, `arch` the sorted stored archive).  `cmp` is `operator.ge` when
maximizing and `operator.le` when minimizing, applied as
`cmp (archive entry fitness) (population entry fitness)`.  Entries promoted
from the population are deep copies in the source; at this value level a deep
copy is the value itself. -/
def mergeLoop {α : Type} (fit : α → ℚ) (cmp : ℚ → ℚ → Bool) :
    Nat → List α → List α → List α
  | 0, _, _ => []
  | _ + 1, [], [] => []
  | n + 1, [], a :: as => a :: mergeLoop fit cmp n [] as
  | n + 1, p :: ps, [] => p :: mergeLoop fit cmp n ps []
  | n + 1, p :: ps, a :: as =>
    if cmp (fit a) (fit p) then a :: mergeLoop fit cmp n (p :: ps) as
    else p :: mergeLoop fit cmp n ps (a :: as)

/-- `KBestFitnessSolutionSelector.update_individuals(population)`: sorts the
stored archive and the caller's population list in place
(`reverse=maximize_fitness`), then merges them into the new archive of at most
`number_solutions` entries.  Returns
`(new archive, the population list as left after the call)`. -/
def updateIndividuals {α : Type} (fit : α → ℚ) (maximizeFitness : Bool)
    (numberSolutions : Nat) (archive population : List α) : List α × List α :=
  let archSorted := pySort fit maximizeFitness archive
  let popSorted := pySort fit maximizeFitness population
  let cmp : ℚ → ℚ → Bool := fun x y =>
    if maximizeFitness then decide (y ≤ x) else decide (x ≤ y)
  (mergeLoop fit cmp numberSolutions popSorted archSorted, popSorted)

/-- The `best_individual` property: `self._best_individuals[-1]`
(`none` models the `IndexError` on an empty archive). -/
def bestIndividual {α : Type} (archive : List α) : Option α := archive.getLast?

end KBestFitnessSolutionSelector

/-! ## `random.shuffle` and `selectors.py`: `BestFromRandomMatingSelector` -/

/-- Swap the elements at positions `i` and `j` (the CPython
`x[i], x[j] = x[j], x[i]` idiom; identity when either index is out of range,
which never happens at the call sites below). -/
def listSwap {α : Type} (l : List α) (i j : Nat) : List α :=
  match l[i]?, l[j]? with
  | some a, some b => (l.set i b).set j a
  | _, _ => l

/-- The Fisher–Yates descent of CPython's `random.shuffle`:
`for i in reversed(range(1, len(x))): j = randbelow(i + 1); swap x[i], x[j]`,
with the successive random draws supplied by `ks` (reduced mod `i + 1` so the
draw is in `[0, i]`). -/
def shuffleGo {α : Type} (ks : Nat → Nat) : Nat → List α → List α
  | 0, l => l
  | i + 1, l => shuffleGo ks i (listSwap l (i + 1) (ks (i + 1) % (i + 2)))

/-- `random.shuffle(l)` as a function of the random stream `ks`. -/
def pyShuffle {α : Type} (ks : Nat → Nat) (l : List α) : List α :=
  shuffleGo ks (l.length - 1) l

namespace BestFromRandomMatingSelector

/-- The `for _ in range(num_pairs)` loop of
`BestFromRandomMatingSelector.select_couples`: each iteration shuffles the
population list in place, takes the first `min(5, len(population))`
individuals, sorts that sample by fitness (`reverse=maximize_fitness`,
`sorted` builds a fresh list) and appends its best two as a couple.
`t` indexes the shuffle calls into the random stream `ks`.  An out-of-range
access on `selected_mates` is `none` (`IndexError`); the second component is
the state of the population list when the call ends. -/
def pairsLoop {α : Type} (fit : α → ℚ) (maximizeFitness : Bool)
    (ks : Nat → Nat → Nat) : Nat → Nat → List α → Option (List (α × α)) × List α
  | _, 0, pop => (some [], pop)
  | t, n + 1, pop =>
    let shuffled := pyShuffle (ks t) pop
    let randomCount := min 5 shuffled.length
    let selectedMates := (pySort fit maximizeFitness (shuffled.take randomCount)).take 2
    match selectedMates with
    | m0 :: m1 :: _ =>
      let rest := pairsLoop fit maximizeFitness ks (t + 1) n shuffled
      (rest.1.map (fun pairs => (m0, m1) :: pairs), rest.2)
    | _ => (none, shuffled)

/-- `BestFromRandomMatingSelector.select_couples(population, num_pairs,
maximize_fitness)`. -/
def selectCouples {α : Type} (fit : α → ℚ) (population : List α) (numPairs : Nat)
    (maximizeFitness : Bool) (ks : Nat → Nat → Nat) :
    Option (List (α × α)) × List α :=
  if population.length ≤ 1 then (some [], population)
  else pairsLoop fit maximizeFitness ks 0 numPairs population

end BestFromRandomMatingSelector

/-! ## `individual.py`: `Individual` and the shared fitness cache -/

/-- An `Individual` at the level of detail the studied claims need: its
object identity (Python `id(...)`), its chromosome and its `generation`.
`chromosome_cls`, the strategy-class references and `custom_data` are carried
by the type parameter `Chr` and the operation parameters below. -/
structure Individual (Chr : Type) where
  ident : Nat
  chromosome : Chr
  generation : Nat

/-- A bare `@lru_cache` (no arguments) keeps at most 128 entries. -/
def lruMaxsize : Nat := 128

/-- The `functools.lru_cache` applied to `Individual.fitness`: because the
decorator wraps the function at class-definition time, there is exactly ONE
cache object shared by every `Individual` instance, keyed by the bound `self`
argument (i.e. by object identity).  `entries` is ordered by recency, the
most-recently-used entry first; the cache never holds more than `lruMaxsize`
entries (least-recently-used entries are evicted).  `computations` counts the
underlying `FitnessComputer.fitness` invocations actually performed. -/
structure FitnessCache where
  entries : List (Nat × ℚ)
  computations : Nat

/-- Look up the cached fitness for the individual with identity `ident`. -/
def cacheLookup (c : FitnessCache) (ident : Nat) : Option ℚ :=
  (c.entries.find? (fun e => e.1 = ident)).map (fun e => e.2)

/-- `self.fitness.cache_clear()`: the wrapper's `cache_clear` empties the
whole class-level cache, wiping every individual's entry, not only the
caller's. -/
def cacheClear (c : FitnessCache) : FitnessCache := ⟨[], c.computations⟩

namespace Individual

/-- `Individual.fitness()` through the `@lru_cache` wrapper
(`maxsize=128`): on a cache hit, return the cached value and move the entry
to the most-recently-used position; on a miss, invoke
`FitnessComputer.fitness(self.chromosome)` (`fc`), count the computation,
insert the result as most-recently-used and, if the cache would now exceed
`lruMaxsize` entries, evict the least-recently-used entry. -/
def fitness {Chr : Type} (fc : Chr → ℚ) (i : Individual Chr) (c : FitnessCache) :
    ℚ × FitnessCache :=
  match c.entries.find? (fun e => e.1 = i.ident) with
  | some e =>
    (e.2, ⟨e :: c.entries.eraseP (fun e2 => e2.1 = i.ident), c.computations⟩)
  | none =>
    let v := fc i.chromosome
    let entries2 := (i.ident, v) :: c.entries
    (v, ⟨if lruMaxsize < entries2.length then entries2.dropLast else entries2,
         c.computations + 1⟩)

/-- `Individual.self_mutate()`: `Mutator.mutate_inplace(self.chromosome)`
(`mutate`) followed by `self.fitness.cache_clear()`. -/
def selfMutate {Chr : Type} (mutate : Chr → Chr) (i : Individual Chr)
    (c : FitnessCache) : Individual Chr × FitnessCache :=
  ({ i with chromosome := mutate i.chromosome }, cacheClear c)

/-- The `chromosome` property setter: `self.fitness.cache_clear()` then
assign the new chromosome. -/
def setChromosome {Chr : Type} (i : Individual Chr) (newChromosome : Chr)
    (c : FitnessCache) : Individual Chr × FitnessCache :=
  ({ i with chromosome := newChromosome }, cacheClear c)

/-- `Individual.recombine(other)`: computes
`Recombiner.recombine(self.chromosome, other.chromosome)` (`rec`) and calls
`self.new_individual(new_chromosome, self.generation + 1)`, which constructs
a fresh `Individual` (object identity `freshId`) and assigns the chromosome
through the property setter — thereby clearing the shared fitness cache.
Neither parent is modified. -/
def recombine {Chr : Type} (rec : Chr → Chr → Chr) (i other : Individual Chr)
    (freshId : Nat) (c : FitnessCache) : Individual Chr × FitnessCache :=
  let newChromosome := rec i.chromosome other.chromosome
  let child : Individual Chr := ⟨freshId, newChromosome, i.generation + 1⟩
  (child, cacheClear c)

/-- Values a Python attribute access on an `Individual` can produce. -/
inductive AttrVal (Chr : Type) where
  | clsRef : AttrVal Chr
  | natVal : Nat → AttrVal Chr
  | dictVal : AttrVal Chr
  | chromVal : Chr → AttrVal Chr
  | methodRef : AttrVal Chr

/-- Python attribute lookup `individual.<name>`: resolves the instance
attributes `Individual.__init__` sets (`chromosome_cls`,
`fitness_computer_cls`, `mutator_cls`, `recombiner_cls`, `generation`,
`custom_data`, `_chromosome`), the class-level `chromosome` property and the
methods/descriptors defined on the class.  Any other name raises
`AttributeError` (the class defines no `__getattr__` fallback and nothing in
the repository ever sets another attribute on an `Individual`);
`Except.error` carries the missing attribute name. -/
def getattr {Chr : Type} (i : Individual Chr) (name : String) :
    Except String (AttrVal Chr) :=
  if name = "chromosome_cls" ∨ name = "fitness_computer_cls" ∨
      name = "mutator_cls" ∨ name = "recombiner_cls" then .ok .clsRef
  else if name = "generation" then .ok (.natVal i.generation)
  else if name = "custom_data" then .ok .dictVal
  else if name = "_chromosome" ∨ name = "chromosome" then .ok (.chromVal i.chromosome)
  else if name = "initialize" ∨ name = "fitness" ∨ name = "self_mutate" ∨
      name = "recombine" ∨ name = "new_individual" then .ok .methodRef
  else .error name

end Individual

/-- Running a sequence of `Individual.fitness()` calls (and nothing else)
against the shared cache. -/
def evalFitnessSeq {Chr : Type} (fc : Chr → ℚ) (others : List (Individual Chr))
    (c : FitnessCache) : FitnessCache :=
  others.foldl (fun acc o => (Individual.fitness fc o acc).2) c

/-! ## `experiment.py`: fitness-budget accounting and stagnation control -/

namespace Experiment

/-- One `dict` assignment `d[ident] = v` on the `defaultdict(int)`
`individual_num_fitness_computed`. -/
def setCount : List (Nat × Nat) → Nat → Nat → List (Nat × Nat)
  | [], ident, v => [(ident, v)]
  | e :: rest, ident, v =>
    if e.1 = ident then (ident, v) :: rest else e :: setCount rest ident v

/-- The per-generation accounting loop of `run_experiment`
(`for individual in population.population: ...`): reads
`individual.num_fitness_computed`, compares it with the stored per-identity
count and updates the table.  An `AttributeError` from the attribute read
propagates as `Except.error`. -/
def updateFitnessCounts {Chr : Type} (pop : List (Individual Chr))
    (counts : List (Nat × Nat)) : Except String (List (Nat × Nat)) :=
  match pop with
  | [] => .ok counts
  | i :: rest =>
    match Individual.getattr i "num_fitness_computed" with
    | .ok (.natVal v) => updateFitnessCounts rest (setCount counts i.ident v)
    | .ok _ => .error "TypeError"
    | .error e => .error e

/-- `EPS = 1e-9`. -/
def EPS : ℚ := 1 / 1000000000

/-- `float_equal(f1, f2)`: `abs(f1 - f2) < EPS`. -/
def floatEqual (f1 f2 : ℚ) : Bool := decide (|f1 - f2| < EPS)

/-- The per-generation update of `zero_sd_counter`:
`if float_equal(population.sd_fitness(), 0.0): zero_sd_counter += 1
else: zero_sd_counter = 0`. -/
def zeroSdStep (counter : Nat) (sd : ℚ) : Nat :=
  if floatEqual sd 0 then counter + 1 else 0

/-- The restart test
`self.restart_zero_sd_tolerance is not None and zero_sd_counter >= self.restart_zero_sd_tolerance`
for a set tolerance `tol`.  Note that the triggered
`population.restart_population()` neither stops the loop (there is no
`break` in that branch) nor modifies `zero_sd_counter`. -/
def restartTriggered (tol counter : Nat) : Bool := decide (tol ≤ counter)

/-- The stagnation bookkeeping of lines 168–175 **in isolation**, folded over
a sequence of `sd_fitness()` readings: returns the final `zero_sd_counter`
and the number of `restart_population()` calls performed.  Processing
continues past a restart, mirroring the absence of a `break`.  NB: in an
actual run no such sequence of readings is ever produced, because every loop
iteration aborts earlier, at the accounting loop (see `loopTail`); this
definition only describes what the lines 168–175 logic would do. -/
def sdRun (tol : Nat) : Nat → List ℚ → Nat × Nat
  | c, [] => (c, 0)
  | c, sd :: rest =>
    let c2 := zeroSdStep c sd
    let r := sdRun tol c2 rest
    (r.1, (if restartTriggered tol c2 then 1 else 0) + r.2)

/-- Outcome of the tail of one `run_experiment` loop iteration: either one of
the two `break`s fires, or the loop keeps going carrying the updated
`zero_sd_counter` and whether `restart_population()` was called. -/
inductive LoopOutcome where
  | breakLoop : LoopOutcome
  | keepGoing : Nat → Bool → LoopOutcome

/-- The tail of each `run_experiment` loop iteration (lines 148–175): the
per-individual accounting loop, then the fitness-budget `break`
(`sum(individual_num_fitness_computed.values())` against
`max_fitness_computations`), then the target-fitness `break` (the pure test
`target_fitness is not None and float_less_equal(...)` abstracted as the
boolean `targetReached`), then the stagnation bookkeeping with its optional
`restart_population()` call.  An uncaught exception (`Except.error`) aborts
the iteration — and the whole run — at the point it is raised. -/
def loopTail {Chr : Type} (pop : List (Individual Chr))
    (counts : List (Nat × Nat)) (maxFitnessComputations : Nat)
    (targetReached : Bool) (tol : Option Nat) (zeroSdCounter : Nat) (sd : ℚ) :
    Except String (List (Nat × Nat) × LoopOutcome) := do
  let counts2 ← updateFitnessCounts pop counts
  let current := (counts2.map (fun e => e.2)).sum
  if maxFitnessComputations ≤ current then
    pure (counts2, .breakLoop)
  else if targetReached then
    pure (counts2, .breakLoop)
  else
    let c2 := zeroSdStep zeroSdCounter sd
    let restart := match tol with
      | some t => restartTriggered t c2
      | none => false
    pure (counts2, .keepGoing c2 restart)

end Experiment

/-! ## `population.py`: `Population.evolve` -/

namespace Population

/-- `Population.evolve()`: computes `breed = self._offspring()` (randomized
and strategy-dependent, so the breed list is a parameter here) and replaces
the population by
`select_survivors(len(self.population), self.population, breed, maximize_fitness)`. -/
def evolve {α : Type} (selectSurvivors : Nat → List α → List α → Bool → List α)
    (maximizeFitness : Bool) (population breed : List α) : List α :=
  selectSurvivors population.length population breed maximizeFitness

/-- `Population.evolve()` specialised to the generational survivor selector
(whose embedding is `Option`-valued because of `statistics.mean`). -/
def evolveGenerational {α : Type} (fit gen : α → ℚ) (maximizeFitness : Bool)
    (population breed : List α) : Option (List α) :=
  GenerationalSurvivorSelector.selectSurvivors fit gen population.length
    population breed maximizeFitness

/-- `Population.evolve()` specialised to the roulette survivor selector
(`Option`-valued, with explicit random streams). -/
def evolveRoulette {α : Type} (fit : α → ℚ) (maximizeFitness : Bool)
    (population breed : List α) (us : Nat → ℚ) (ks : Nat → Nat) :
    Option (List α) :=
  RouletteSurvivorSelector.selectSurvivors fit population.length
    population breed maximizeFitness us ks

end Population

end GF


/-!
# Theorems

Helper lemmas about the embedded definitions, followed by one theorem per
claim (with witnesses / counterexamples where required).
-/

namespace GF

theorem length_stableInsert {α : Type} (le : α → α → Bool) (x : α) (l : List α) :
    (stableInsert le x l).length = l.length + 1 := by
  induction l with
  | nil => rfl
  | cons y ys ih =>
    simp only [stableInsert]
    by_cases h : le y x = true
    · simp [h, ih]
    · simp [h]

theorem length_stableSort {α : Type} (le : α → α → Bool) (l : List α) :
    (stableSort le l).length = l.length := by
  suffices h : ∀ acc : List α,
      (l.foldl (fun acc x => stableInsert le x acc) acc).length = acc.length + l.length by
    simpa using h []
  induction l with
  | nil => simp
  | cons y ys ih =>
    intro acc
    simp only [List.foldl_cons]
    rw [ih (stableInsert le y acc), length_stableInsert]
    simp only [List.length_cons]
    omega

theorem length_pySort {α : Type} (key : α → ℚ) (reverse : Bool) (l : List α) :
    (pySort key reverse l).length = l.length := by
  simp [pySort, length_stableSort]

namespace BestFitnessSurvivorSelector

theorem length_mergeLoop {α : Type} (fit : α → ℚ) :
    ∀ (n : Nat) (ps bs : List α),
      (mergeLoop fit n ps bs).length = min n (ps.length + bs.length)
  | 0, _, _ => by simp [mergeLoop]
  | n + 1, [], [] => by simp [mergeLoop]
  | n + 1, [], b :: bs => by
    simp [mergeLoop, length_mergeLoop fit n [] bs]; omega
  | n + 1, p :: ps, [] => by
    simp [mergeLoop, length_mergeLoop fit n ps []]; omega
  | n + 1, p :: ps, b :: bs => by
    simp only [mergeLoop]
    by_cases h1 : fit p < fit b
    · simp [h1, length_mergeLoop fit n (p :: ps) bs]; omega
    · by_cases h2 : fit b < fit p
      · simp [h1, h2, length_mergeLoop fit n ps (b :: bs)]; omega
      · simp [h1, h2, length_mergeLoop fit n ps (b :: bs)]; omega

theorem length_selectSurvivors {α : Type} (fit : α → ℚ) (populationSize : Nat)
    (parents breed : List α) (maximizeFitness : Bool) :
    (selectSurvivors fit populationSize parents breed maximizeFitness).length =
      min populationSize (parents.length + breed.length) := by
  simp [selectSurvivors, length_mergeLoop, length_pySort]

end BestFitnessSurvivorSelector

namespace Roulette

theorem length_accumulate {α : Type} (prev : ℚ) (l : List (Item α)) :
    (accumulate prev l).length = l.length := by
  induction l generalizing prev with
  | nil => rfl
  | cons it rest ih => simp [accumulate, ih]

theorem length_init {α : Type} (fit : α → ℚ) (population : List α)
    (replacement : Bool) :
    (init fit population replacement).1.length = population.length := by
  simp [init, length_accumulate, length_pySort]

theorem selectScan_length {α : Type} (r : ℚ) :
    ∀ (items : List (Item α)) (it : Item α) (rest : List (Item α)),
      selectScan r items = some (it, rest) → rest.length + 1 = items.length
  | [], it, rest => by simp [selectScan]
  | hd :: tl, it, rest => by
    simp only [selectScan]
    by_cases h : r ≤ hd.acc
    · simp only [if_pos h]
      intro heq
      cases heq
      simp
    · simp only [if_neg h]
      cases hscan : selectScan r tl with
      | none => simp
      | some p =>
        obtain ⟨it2, rest2⟩ := p
        have hrec := selectScan_length r tl it2 rest2 hscan
        simp only [Option.map, Option.bind]
        intro heq
        cases heq
        simp [← hrec]

theorem getIndividual_length {α : Type} (items : List (Item α)) (u : ℚ) (k : Nat)
    (hne : items ≠ []) :
    ∃ x rest, getIndividual items u k = some (x, rest) ∧
      rest.length + 1 = items.length := by
  have hlast : ∃ last, items.getLast? = some last := by
    cases items with
    | nil => exact absurd rfl hne
    | cons a l => exact ⟨(a :: l).getLast (by simp), List.getLast?_eq_getLast _ _⟩
  obtain ⟨last, hlast⟩ := hlast
  cases hscan : selectScan (u * last.acc) items with
  | some p =>
    obtain ⟨it, rest⟩ := p
    refine ⟨it.individual, rest, ?_, selectScan_length _ items it rest hscan⟩
    simp [getIndividual, hlast, hscan]
  | none =>
    have hpos : 0 < items.length := by
      cases items with
      | nil => exact absurd rfl hne
      | cons a l => simp
    have hidx : k % items.length < items.length := Nat.mod_lt _ hpos
    have hget : items[k % items.length]? = some (items.get ⟨k % items.length, hidx⟩) :=
      List.getElem?_eq_getElem hidx
    refine ⟨(items.get ⟨k % items.length, hidx⟩).individual, items.eraseIdx (k % items.length), ?_, ?_⟩
    · simp [getIndividual, hlast, hscan, hget]
    · rw [List.length_eraseIdx_of_lt hidx]
      omega

theorem drawN_length {α : Type} :
    ∀ (n : Nat) (items : List (Item α)) (us : Nat → ℚ) (ks : Nat → Nat),
      n ≤ items.length → ∃ l, drawN us ks n items = some l ∧ l.length = n
  | 0, items, us, ks, _ => ⟨[], rfl, rfl⟩
  | n + 1, items, us, ks, h => by
    have hne : items ≠ [] := by
      intro heq
      rw [heq] at h
      simp at h
    obtain ⟨x, rest, hget, hlen⟩ := getIndividual_length items (us 0) (ks 0) hne
    have hrec : n ≤ rest.length := by omega
    obtain ⟨l, hdraw, hllen⟩ :=
      drawN_length n rest (fun i => us (i + 1)) (fun i => ks (i + 1)) hrec
    refine ⟨x :: l, ?_, by simp [hllen]⟩
    simp [drawN, hget, hdraw]

end Roulette

end GF

namespace GF

theorem sdRun_append (tol : Nat) (l1 l2 : List ℚ) :
    ∀ c, Experiment.sdRun tol c (l1 ++ l2) =
      ((Experiment.sdRun tol (Experiment.sdRun tol c l1).1 l2).1,
       (Experiment.sdRun tol c l1).2 +
         (Experiment.sdRun tol (Experiment.sdRun tol c l1).1 l2).2) := by
  induction l1 with
  | nil => intro c; simp [Experiment.sdRun]
  | cons sd l1 ih =>
    intro c
    simp only [List.cons_append, Experiment.sdRun, List.append_eq]
    rw [ih (Experiment.zeroSdStep c sd)]
    simp [Nat.add_assoc]

theorem sdRun_all_zero (tol : Nat) :
    ∀ (zeros : List ℚ) (c : Nat),
      (∀ x ∈ zeros, Experiment.floatEqual x 0 = true) → c + zeros.length ≤ tol →
      Experiment.sdRun tol c zeros =
        (c + zeros.length,
         if c + zeros.length = tol ∧ 1 ≤ zeros.length then 1 else 0) := by
  intro zeros
  induction zeros with
  | nil => intro c _ _; simp [Experiment.sdRun]
  | cons x zs ih =>
    intro c hall hle
    have hx : Experiment.floatEqual x 0 = true := hall x (by simp)
    have hzs : ∀ y ∈ zs, Experiment.floatEqual y 0 = true :=
      fun y hy => hall y (by simp [hy])
    have h1 : c + 1 + zs.length ≤ tol := by
      simp only [List.length_cons] at hle
      omega
    simp only [Experiment.sdRun, Experiment.zeroSdStep, hx, if_true]
    rw [ih (c + 1) hzs h1]
    simp only [Experiment.restartTriggered, List.length_cons, decide_eq_true_eq,
      Prod.mk.injEq]
    constructor
    · omega
    · split_ifs <;> omega

theorem find?_ident_decomp (ident : Nat) (v : ℚ) :
    ∀ (pre post : List (Nat × ℚ)), (∀ e ∈ pre, e.1 ≠ ident) →
      (pre ++ (ident, v) :: post).find? (fun e => e.1 = ident) = some (ident, v)
  | [], post, _ => by simp [List.find?]
  | e :: pre, post, h => by
    have he : e.1 ≠ ident := h e (by simp)
    have hd : (decide (e.1 = ident)) = false := by simp [he]
    simp only [List.cons_append, List.find?_cons, hd]
    exact find?_ident_decomp ident v pre post (fun x hx => h x (by simp [hx]))

theorem cacheLookup_of_decomp (c : FitnessCache) (ident : Nat) (v : ℚ)
    (pre post : List (Nat × ℚ)) (hc : c.entries = pre ++ (ident, v) :: post)
    (hpre : ∀ e ∈ pre, e.1 ≠ ident) :
    cacheLookup c ident = some v := by
  unfold cacheLookup
  rw [hc, find?_ident_decomp ident v pre post hpre]
  rfl

theorem fitness_hit_computations {Chr : Type} (fc : Chr → ℚ) (i : Individual Chr)
    (c : FitnessCache) (v : ℚ) (h : cacheLookup c i.ident = some v) :
    (Individual.fitness fc i c).2.computations = c.computations := by
  unfold cacheLookup at h
  unfold Individual.fitness
  cases hf : c.entries.find? (fun e => e.1 = i.ident) with
  | some e => rfl
  | none => rw [hf] at h; simp at h

theorem fitness_computations_le {Chr : Type} (fc : Chr → ℚ) (i : Individual Chr)
    (c : FitnessCache) :
    (Individual.fitness fc i c).2.computations ≤ c.computations + 1 := by
  unfold Individual.fitness
  cases hf : c.entries.find? (fun e => e.1 = i.ident) <;> simp

theorem fitness_entries_head {Chr : Type} (fc : Chr → ℚ) (i : Individual Chr)
    (c : FitnessCache) :
    ∃ w post, (Individual.fitness fc i c).2.entries = (i.ident, w) :: post := by
  unfold Individual.fitness
  cases hf : c.entries.find? (fun e => e.1 = i.ident) with
  | some e =>
    have hpe : e.1 = i.ident := by simpa using List.find?_some hf
    refine ⟨e.2, c.entries.eraseP (fun e2 => e2.1 = i.ident), ?_⟩
    simp only []
    rw [← hpe]
  | none =>
    by_cases htrim : lruMaxsize < ((i.ident, fc i.chromosome) :: c.entries).length
    · cases hent : c.entries with
      | nil =>
        rw [hent] at htrim
        simp [lruMaxsize] at htrim
      | cons q qs =>
        rw [hent] at htrim
        refine ⟨fc i.chromosome, (q :: qs).dropLast, ?_⟩
        show (if lruMaxsize < ((i.ident, fc i.chromosome) :: q :: qs).length
            then ((i.ident, fc i.chromosome) :: q :: qs).dropLast
            else (i.ident, fc i.chromosome) :: q :: qs) =
          (i.ident, fc i.chromosome) :: (q :: qs).dropLast
        rw [if_pos htrim, List.dropLast_cons₂]
    · refine ⟨fc i.chromosome, c.entries, ?_⟩
      show (if lruMaxsize < ((i.ident, fc i.chromosome) :: c.entries).length
          then ((i.ident, fc i.chromosome) :: c.entries).dropLast
          else (i.ident, fc i.chromosome) :: c.entries) =
        (i.ident, fc i.chromosome) :: c.entries
      rw [if_neg htrim]

theorem lru_step {Chr : Type} (fc : Chr → ℚ) (o : Individual Chr)
    (c : FitnessCache) (ident : Nat) (v : ℚ) (m : Nat)
    (hne : o.ident ≠ ident) (hm : m + 1 < lruMaxsize)
    (pre post : List (Nat × ℚ)) (hc : c.entries = pre ++ (ident, v) :: post)
    (hlen : pre.length ≤ m) (hpre : ∀ e ∈ pre, e.1 ≠ ident) :
    ∃ pre2 post2, (Individual.fitness fc o c).2.entries = pre2 ++ (ident, v) :: post2 ∧
      pre2.length ≤ m + 1 ∧ ∀ e ∈ pre2, e.1 ≠ ident := by
  unfold Individual.fitness
  cases hf : c.entries.find? (fun e => e.1 = o.ident) with
  | some e =>
    have hpe : e.1 = o.ident := by simpa using List.find?_some hf
    have heni : e.1 ≠ ident := by rw [hpe]; exact hne
    by_cases hin : ∃ x ∈ pre, x.1 = o.ident
    · obtain ⟨x, hx, hxp⟩ := hin
      have herase : (pre ++ (ident, v) :: post).eraseP (fun e2 => e2.1 = o.ident) =
          pre.eraseP (fun e2 => e2.1 = o.ident) ++ (ident, v) :: post :=
        List.eraseP_append_left (by simp [hxp]) _ hx
      refine ⟨e :: pre.eraseP (fun e2 => e2.1 = o.ident), post, ?_, ?_, ?_⟩
      · simp only [hc, herase, List.cons_append]
      · have := List.length_eraseP_le pre (p := fun e2 => (e2.1 = o.ident : Bool))
        simp only [List.length_cons]
        omega
      · intro x2 hx2
        rcases List.mem_cons.mp hx2 with h2 | h2
        · rw [h2]; exact heni
        · exact hpre x2 ((List.eraseP_sublist pre).subset h2)
    · have hnone : ∀ b ∈ pre, ¬ ((fun e2 => (e2.1 = o.ident : Bool)) b = true) := by
        intro b hb hbp
        exact hin ⟨b, hb, by simpa using hbp⟩
      have herase : (pre ++ (ident, v) :: post).eraseP (fun e2 => e2.1 = o.ident) =
          pre ++ ((ident, v) :: post).eraseP (fun e2 => e2.1 = o.ident) :=
        List.eraseP_append_right _ hnone
      have hcons : ((ident, v) :: post).eraseP (fun e2 => e2.1 = o.ident) =
          (ident, v) :: post.eraseP (fun e2 => e2.1 = o.ident) :=
        List.eraseP_cons_of_neg (by simp; exact fun heq => hne heq.symm)
      refine ⟨e :: pre, post.eraseP (fun e2 => e2.1 = o.ident), ?_, ?_, ?_⟩
      · simp only [hc, herase, hcons, List.cons_append]
      · simp only [List.length_cons]; omega
      · intro x2 hx2
        rcases List.mem_cons.mp hx2 with h2 | h2
        · rw [h2]; exact heni
        · exact hpre x2 h2
  | none =>
    by_cases htrim : lruMaxsize < ((o.ident, fc o.chromosome) :: c.entries).length
    · cases hpost : post with
      | nil =>
        exfalso
        rw [hc, hpost] at htrim
        simp only [List.length_cons, List.length_append, List.length_cons,
          List.length_nil] at htrim
        omega
      | cons q qs =>
        rw [hc, hpost] at htrim
        refine ⟨(o.ident, fc o.chromosome) :: pre, (q :: qs).dropLast, ?_, ?_, ?_⟩
        · show (if lruMaxsize < ((o.ident, fc o.chromosome) :: c.entries).length
              then ((o.ident, fc o.chromosome) :: c.entries).dropLast
              else (o.ident, fc o.chromosome) :: c.entries) =
            ((o.ident, fc o.chromosome) :: pre) ++ (ident, v) :: (q :: qs).dropLast
          rw [hc, hpost, if_pos htrim]
          rw [show (o.ident, fc o.chromosome) :: (pre ++ (ident, v) :: q :: qs) =
            ((o.ident, fc o.chromosome) :: pre) ++ (ident, v) :: q :: qs by simp,
            List.dropLast_append_cons, List.dropLast_cons₂]
        · simp only [List.length_cons]; omega
        · intro x2 hx2
          rcases List.mem_cons.mp hx2 with h2 | h2
          · rw [h2]; exact hne
          · exact hpre x2 h2
    · refine ⟨(o.ident, fc o.chromosome) :: pre, post, ?_, ?_, ?_⟩
      · show (if lruMaxsize < ((o.ident, fc o.chromosome) :: c.entries).length
            then ((o.ident, fc o.chromosome) :: c.entries).dropLast
            else (o.ident, fc o.chromosome) :: c.entries) =
          ((o.ident, fc o.chromosome) :: pre) ++ (ident, v) :: post
        rw [if_neg htrim, hc]
        simp [List.cons_append]
      · simp only [List.length_cons]; omega
      · intro x2 hx2
        rcases List.mem_cons.mp hx2 with h2 | h2
        · rw [h2]; exact hne
        · exact hpre x2 h2

theorem lru_seq {Chr : Type} (fc : Chr → ℚ) (ident : Nat) (v : ℚ) :
    ∀ (others : List (Individual Chr)) (c : FitnessCache) (m : Nat),
      (∀ o ∈ others, o.ident ≠ ident) → m + others.length < lruMaxsize →
      (∃ pre post, c.entries = pre ++ (ident, v) :: post ∧ pre.length ≤ m ∧
        ∀ e ∈ pre, e.1 ≠ ident) →
      ∃ pre post, (evalFitnessSeq fc others c).entries = pre ++ (ident, v) :: post ∧
        pre.length ≤ m + others.length ∧ ∀ e ∈ pre, e.1 ≠ ident
  | [], c, m, _, _, hd => by simpa using hd
  | o :: os, c, m, h, hm, hd => by
    obtain ⟨pre, post, hc, hlen, hpre⟩ := hd
    have hlen2 : os.length + 1 = (o :: os).length := by simp
    have hstep := lru_step fc o c ident v m (h o (by simp)) (by omega) pre post hc hlen hpre
    have hrec := lru_seq fc ident v os (Individual.fitness fc o c).2 (m + 1)
      (fun x hx => h x (by simp [hx])) (by omega) hstep
    obtain ⟨pre2, post2, h1, h2, h3⟩ := hrec
    exact ⟨pre2, post2, h1, by simp only [List.length_cons]; omega, h3⟩

theorem pairLoop_ok {α : Type} (l : List α) :
    ∀ (n i : Nat), i + 2 * n ≤ l.length →
      ∃ out, BestFitnessMatingSelector.pairLoop l i n = some out ∧
        out.length = n ∧
        ∀ k, k < n → ∃ a b, l[i + 2 * k]? = some a ∧ l[i + 2 * k + 1]? = some b ∧
          out[k]? = some (a, b)
  | 0, i, _ => ⟨[], rfl, rfl, fun k hk => absurd hk (by omega)⟩
  | n + 1, i, h => by
    have hi : i < l.length := by omega
    have hi1 : i + 1 < l.length := by omega
    have ha : l[i]? = some (l.get ⟨i, hi⟩) := List.getElem?_eq_getElem hi
    have hb : l[i + 1]? = some (l.get ⟨i + 1, hi1⟩) := List.getElem?_eq_getElem hi1
    obtain ⟨out, hout, hlen, hidx⟩ := pairLoop_ok l n (i + 2) (by omega)
    refine ⟨(l.get ⟨i, hi⟩, l.get ⟨i + 1, hi1⟩) :: out, ?_, by simp [hlen], ?_⟩
    · simp [BestFitnessMatingSelector.pairLoop, ha, hb, hout]
    · intro k hk
      cases k with
      | zero =>
        refine ⟨l.get ⟨i, hi⟩, l.get ⟨i + 1, hi1⟩, ?_, ?_, ?_⟩
        · simp only [Nat.mul_zero, Nat.add_zero]
          exact ha
        · simp only [Nat.mul_zero, Nat.add_zero]
          exact hb
        · simp
      | succ k =>
        obtain ⟨a, b, hka, hkb, hout2⟩ := hidx k (by omega)
        have e1 : i + 2 * (k + 1) = i + 2 + 2 * k := by omega
        have e2 : i + 2 * (k + 1) + 1 = i + 2 + 2 * k + 1 := by omega
        exact ⟨a, b, by rw [e1]; exact hka, by rw [e2]; exact hkb, by simpa using hout2⟩

theorem floatEqual_zero : Experiment.floatEqual 0 0 = true := by
  norm_num [Experiment.floatEqual, Experiment.EPS]

theorem floatEqual_one : Experiment.floatEqual 1 0 = false := by
  norm_num [Experiment.floatEqual, Experiment.EPS]

end GF

namespace GF

/-- C1: REFUTED as stated — after `update_individuals` on a non-empty
population (maximizing, `number_solutions = 2`, fitnesses 1 and 2), the
archive holds `[2, 1]` (descending), but `best_individual`
(`self._best_individuals[-1]`) returns the fitness-1 entry, the *worst*
archived individual, not the one with the highest fitness. -/
theorem claim1_best_individual_returns_worst_archived :
    (KBestFitnessSolutionSelector.updateIndividuals id true 2 [] [(1 : ℚ), 2]).1 = [2, 1] ∧
    KBestFitnessSolutionSelector.bestIndividual
        (KBestFitnessSolutionSelector.updateIndividuals id true 2 [] [(1 : ℚ), 2]).1 =
      some 1 ∧
    (1 : ℚ) < 2 := by
  refine ⟨by decide, by decide, by decide⟩

/-- C2: the accounting loop of `run_experiment` reads
`individual.num_fitness_computed`, an attribute no code in the repository
ever sets, so for every non-empty population the loop raises
`AttributeError` on its first iteration. -/
theorem claim2_accounting_attribute_error {Chr : Type}
    (pop : List (Individual Chr)) (counts : List (Nat × Nat)) (h : pop ≠ []) :
    Experiment.updateFitnessCounts pop counts = .error "num_fitness_computed" := by
  cases pop with
  | nil => exact absurd rfl h
  | cons i rest => rfl

theorem claim2_accounting_attribute_error_witness :
    ([(⟨0, (0 : ℚ), 1⟩ : Individual ℚ)] ≠ []) ∧
    Experiment.updateFitnessCounts [(⟨0, (0 : ℚ), 1⟩ : Individual ℚ)] [] =
      .error "num_fitness_computed" :=
  ⟨List.cons_ne_nil _ _,
   claim2_accounting_attribute_error _ _ (List.cons_ne_nil _ _)⟩

/-- C3: REFUTED as stated — minimizing, with parents of fitness `[1, 10]` and
breed of fitness `[2, 3]` and `population_size = 2`, the merge comparisons use
raw `<`/`>` (direction-blind), so the survivors are `[2, 3]` and the
direction-aware best individual (fitness 1, minimal) is dropped. -/
theorem claim3_elitist_merge_drops_best :
    BestFitnessSurvivorSelector.selectSurvivors id 2 [(1 : ℚ), 10] [2, 3] false = [2, 3] ∧
    (∀ x ∈ ([(1 : ℚ), 10] ++ [2, 3]), (1 : ℚ) ≤ x) ∧
    (1 : ℚ) ∉ BestFitnessSurvivorSelector.selectSurvivors id 2 [(1 : ℚ), 10] [2, 3] false := by
  refine ⟨by decide, by decide, by decide⟩

/-- C4: REFUTED as stated — constructed for a minimize problem
(`Roulette(population, maximize_fitness=False)`, so `False` lands in the
unused `replacement` parameter), the selection buckets are the raw fitness
values: with fitnesses 1 and 3 the lower-fitness (better) individual owns a
bucket of width 1 and the higher-fitness one a bucket of width 3, so the
lower-fitness individual is *less* likely to be returned; e.g. the median
draw `u = 1/2` returns the fitness-3 individual. -/
theorem claim4_roulette_direction_blind :
    Roulette.spanOf (Roulette.init id [(1 : ℚ), 3] false).1 1 = 1 ∧
    Roulette.spanOf (Roulette.init id [(1 : ℚ), 3] false).1 3 = 3 ∧
    Roulette.spanOf (Roulette.init id [(1 : ℚ), 3] false).1 1 <
      Roulette.spanOf (Roulette.init id [(1 : ℚ), 3] false).1 3 ∧
    (Roulette.getIndividual (Roulette.init id [(1 : ℚ), 3] false).1 (1/2) 0).map
      Prod.fst = some 3 := by
  refine ⟨?_, ?_, ?_, ?_⟩ <;>
    norm_num [Roulette.init, Roulette.accumulate, pySort, stableSort, stableInsert,
      Roulette.itemSpans, Roulette.spanOf, Roulette.getIndividual, Roulette.selectScan]

/-- C5 counterexample: `a.recombine(b)` with `a.generation = 1` and
`b.generation = 5` yields a child of generation `2 = a.generation + 1`, not
`max(a.generation, b.generation) + 1 = 6`. -/
theorem claim5_recombine_generation_counterexample :
    (Individual.recombine (fun _ y : ℚ => y) ⟨1, 0, 1⟩ ⟨2, 0, 5⟩ 7 ⟨[], 0⟩).1.generation = 2 ∧
    (Individual.recombine (fun _ y : ℚ => y) ⟨1, 0, 1⟩ ⟨2, 0, 5⟩ 7 ⟨[], 0⟩).1.generation ≠
      max (⟨1, (0 : ℚ), 1⟩ : Individual ℚ).generation
        (⟨2, (0 : ℚ), 5⟩ : Individual ℚ).generation + 1 := by
  refine ⟨by decide, by decide⟩

/-- C5 amended: `a.recombine(b)` returns a brand-new individual (fresh
identity) whose chromosome is `Recombiner.recombine(a.chromosome,
b.chromosome)`, whose generation is `a.generation + 1` (the receiver's
generation plus one, ignoring `b.generation`), and whose fitness memo starts
empty (the construction clears the shared cache, so no entry exists for the
fresh identity); the parents' chromosomes are only read, never written. -/
theorem claim5_recombine_amended {Chr : Type} (rec : Chr → Chr → Chr)
    (a b : Individual Chr) (freshId : Nat) (c : FitnessCache) :
    (Individual.recombine rec a b freshId c).1 =
      ⟨freshId, rec a.chromosome b.chromosome, a.generation + 1⟩ ∧
    cacheLookup (Individual.recombine rec a b freshId c).2 freshId = none ∧
    (Individual.recombine rec a b freshId c).2.computations = c.computations :=
  ⟨rfl, rfl, rfl⟩

/-- C6 counterexample: `b.fitness(); a.self_mutate(); b.fitness()` performs
TWO underlying fitness computations, because `a.self_mutate()` calls
`cache_clear` on the class-level `lru_cache` shared by all individuals,
wiping `b`'s memo as well. -/
theorem claim6_shared_cache_counterexample :
    (Individual.fitness id (⟨1, 10, 1⟩ : Individual ℚ)
        (Individual.selfMutate (fun x => x + 1) (⟨2, 5, 1⟩ : Individual ℚ)
          (Individual.fitness id (⟨1, 10, 1⟩ : Individual ℚ) ⟨[], 0⟩).2).2).2.computations = 2 ∧
    (Individual.fitness id (⟨1, 10, 1⟩ : Individual ℚ)
        (Individual.selfMutate (fun x => x + 1) (⟨2, 5, 1⟩ : Individual ℚ)
          (Individual.fitness id (⟨1, 10, 1⟩ : Individual ℚ) ⟨[], 0⟩).2).2).2.computations ≠ 1 := by
  refine ⟨by decide, by decide⟩

/-- C6 amended: calling `b.fitness()` twice triggers at most one underlying
computation, provided (i) the only operations touching the shared cache in
between are `fitness()` evaluations of other individuals (identities distinct
from `b`'s) — any `self_mutate` or chromosome replacement on *any* individual
clears the class-level shared cache and voids the guarantee — and
(ii) fewer than `lruMaxsize = 128` such evaluations occur in between: the
bare `@lru_cache` holds at most 128 entries with least-recently-used
eviction, so 128 or more intervening evaluations can evict `b`'s entry.
Under (i) and (ii) the second call of `b.fitness()` hits the cache and
performs no new computation, and the first call performs at most one. -/
theorem claim6_memoization_amended {Chr : Type} (fc : Chr → ℚ)
    (b : Individual Chr) (others : List (Individual Chr)) (c : FitnessCache)
    (h : ∀ o ∈ others, o.ident ≠ b.ident) (hcount : others.length < lruMaxsize) :
    (Individual.fitness fc b
        (evalFitnessSeq fc others (Individual.fitness fc b c).2)).2.computations =
      (evalFitnessSeq fc others (Individual.fitness fc b c).2).computations ∧
    (Individual.fitness fc b c).2.computations ≤ c.computations + 1 := by
  constructor
  · obtain ⟨w, post, hhead⟩ := fitness_entries_head fc b c
    obtain ⟨pre2, post2, h1, h2, h3⟩ :=
      lru_seq fc b.ident w others (Individual.fitness fc b c).2 0 h (by omega)
        ⟨[], post, by simpa using hhead, by simp, by simp⟩
    exact fitness_hit_computations fc b _ w
      (cacheLookup_of_decomp _ b.ident w pre2 post2 h1 h3)
  · exact fitness_computations_le fc b c

theorem claim6_memoization_amended_witness :
    ((∀ o ∈ [(⟨2, (5 : ℚ), 1⟩ : Individual ℚ)], o.ident ≠ (⟨1, (10 : ℚ), 1⟩ : Individual ℚ).ident) ∧
      ([(⟨2, (5 : ℚ), 1⟩ : Individual ℚ)] : List (Individual ℚ)).length < lruMaxsize) ∧
    ((Individual.fitness id (⟨1, (10 : ℚ), 1⟩ : Individual ℚ)
        (evalFitnessSeq id [(⟨2, (5 : ℚ), 1⟩ : Individual ℚ)]
          (Individual.fitness id (⟨1, (10 : ℚ), 1⟩ : Individual ℚ) ⟨[], 0⟩).2)).2.computations =
      (evalFitnessSeq id [(⟨2, (5 : ℚ), 1⟩ : Individual ℚ)]
        (Individual.fitness id (⟨1, (10 : ℚ), 1⟩ : Individual ℚ) ⟨[], 0⟩).2).computations ∧
    (Individual.fitness id (⟨1, (10 : ℚ), 1⟩ : Individual ℚ) ⟨[], 0⟩).2.computations ≤ 0 + 1) :=
  ⟨⟨fun o ho => by
      have : o = ⟨2, (5 : ℚ), 1⟩ := by simpa using ho
      rw [this]
      decide,
    by decide⟩,
   claim6_memoization_amended id _ _ _ (fun o ho => by
      have : o = ⟨2, (5 : ℚ), 1⟩ := by simpa using ho
      rw [this]
      decide) (by decide)⟩

/-- What the lines 168–175 stagnation bookkeeping would do **in isolation**
(no run of `run_experiment` ever reaches it, see
`claim7_stagnation_logic_unreachable`): with tolerance `tol ≥ 1` and sd
numerically zero (`float_equal(sd, 0.0)`, within `1e-9`) for exactly `tol`
consecutive readings followed by a nonzero reading, exactly one
`restart_population()` call is performed inside that window, processing
continues, and the counter is back at 0 entering `rest`. -/
theorem sdRun_window_restarts_once (tol : Nat) (zeros : List ℚ) (s : ℚ)
    (rest : List ℚ) (htol : 1 ≤ tol) (hlen : zeros.length = tol)
    (hzeros : ∀ x ∈ zeros, Experiment.floatEqual x 0 = true)
    (hs : Experiment.floatEqual s 0 = false) :
    Experiment.sdRun tol 0 (zeros ++ s :: rest) =
      ((Experiment.sdRun tol 0 rest).1, 1 + (Experiment.sdRun tol 0 rest).2) := by
  have hz := sdRun_all_zero tol zeros 0 hzeros (by omega)
  have hcond : 0 + zeros.length = tol ∧ 1 ≤ zeros.length := by omega
  rw [sdRun_append tol zeros (s :: rest) 0, hz]
  rw [if_pos hcond]
  simp only [Experiment.sdRun, Experiment.zeroSdStep, hs, Bool.false_eq_true,
    if_false, Experiment.restartTriggered]
  have hnt : ¬ (tol ≤ 0) := by omega
  simp [hnt]

/-- Concrete instance of `sdRun_window_restarts_once` at `tol = 2`. -/
theorem sdRun_window_restarts_once_example :
    (1 ≤ 2 ∧ ([(0 : ℚ), 0] : List ℚ).length = 2 ∧
      (∀ x ∈ ([(0 : ℚ), 0] : List ℚ), Experiment.floatEqual x 0 = true) ∧
      Experiment.floatEqual 1 0 = false) ∧
    Experiment.sdRun 2 0 ([(0 : ℚ), 0] ++ 1 :: []) =
      ((Experiment.sdRun 2 0 []).1, 1 + (Experiment.sdRun 2 0 []).2) :=
  have hz : ∀ x ∈ ([(0 : ℚ), 0] : List ℚ), Experiment.floatEqual x 0 = true :=
    fun x hx => by
      have : x = 0 := by
        rcases List.mem_cons.mp hx with h | h
        · exact h
        · simpa using h
      rw [this]
      exact floatEqual_zero
  ⟨⟨by omega, rfl, hz, floatEqual_one⟩,
   sdRun_window_restarts_once 2 [(0 : ℚ), 0] 1 [] (by omega) rfl hz floatEqual_one⟩

/-- C7: REFUTED on the program — the claimed restart-and-continue behaviour
is unreachable.  Every iteration of the generational loop raises
`AttributeError` in the per-individual accounting loop (the
`num_fitness_computed` read, lines 148–154) *before* the zero-sd check at
line 168, for every non-empty population, every tolerance setting, every
counter value and every sd reading; so `zero_sd_counter` is never updated and
`restart_population()` is never called by `run_experiment`. -/
theorem claim7_stagnation_logic_unreachable {Chr : Type}
    (pop : List (Individual Chr)) (counts : List (Nat × Nat))
    (maxFitnessComputations : Nat) (targetReached : Bool) (tol : Option Nat)
    (zeroSdCounter : Nat) (sd : ℚ) (h : pop ≠ []) :
    Experiment.loopTail pop counts maxFitnessComputations targetReached tol
      zeroSdCounter sd = .error "num_fitness_computed" := by
  cases pop with
  | nil => exact absurd rfl h
  | cons i rest => rfl

theorem claim7_stagnation_logic_unreachable_witness :
    ([(⟨0, (0 : ℚ), 1⟩ : Individual ℚ)] ≠ []) ∧
    Experiment.loopTail [(⟨0, (0 : ℚ), 1⟩ : Individual ℚ)] [] 1000 false (some 10) 0 0 =
      .error "num_fitness_computed" :=
  ⟨List.cons_ne_nil _ _,
   claim7_stagnation_logic_unreachable _ _ _ _ _ _ _ (List.cons_ne_nil _ _)⟩

end GF

namespace GF

/-- C8: for every non-empty population and arbitrary breed list,
`Population.evolve()` restores the population to exactly its previous size
(`len(self.population)`, the caller-configured size maintained inductively
across generations) under each of the three survivor selectors: the elitist
merge, the generational (age-weighted) selector, and the roulette selector
(for any random streams). -/
theorem claim8_population_size_restored {α : Type} (fit gen : α → ℚ)
    (population breed : List α) (maximizeFitness : Bool)
    (us : Nat → ℚ) (ks : Nat → Nat) (h : population ≠ []) :
    (Population.evolve (BestFitnessSurvivorSelector.selectSurvivors fit)
        maximizeFitness population breed).length = population.length ∧
    (∃ l, Population.evolveGenerational fit gen maximizeFitness population breed =
        some l ∧ l.length = population.length) ∧
    (∃ l, Population.evolveRoulette fit maximizeFitness population breed us ks =
        some l ∧ l.length = population.length) := by
  refine ⟨?_, ?_, ?_⟩
  · rw [Population.evolve, BestFitnessSurvivorSelector.length_selectSurvivors]
    omega
  · cases population with
    | nil => exact absurd rfl h
    | cons hd tl =>
      refine ⟨_, rfl, ?_⟩
      · simp only [List.length_take, length_pySort, List.length_append, List.length_cons]
        omega
  · have hlen : population.length ≤ ((Roulette.init fit (population ++ breed)
        maximizeFitness).1).length := by
      rw [Roulette.length_init]
      simp
    obtain ⟨l, hdraw, hl⟩ := Roulette.drawN_length population.length _ us ks hlen
    exact ⟨l, hdraw, hl⟩


end GF

namespace GF

theorem claim8_population_size_restored_witness :
    (([(1 : ℚ)] : List ℚ) ≠ []) ∧
    ((Population.evolve (BestFitnessSurvivorSelector.selectSurvivors id)
        true [(1 : ℚ)] []).length = ([(1 : ℚ)] : List ℚ).length ∧
    (∃ l, Population.evolveGenerational id id true [(1 : ℚ)] [] = some l ∧
        l.length = ([(1 : ℚ)] : List ℚ).length) ∧
    (∃ l, Population.evolveRoulette id true [(1 : ℚ)] [] (fun _ => 0) (fun _ => 0) =
        some l ∧ l.length = ([(1 : ℚ)] : List ℚ).length)) :=
  ⟨List.cons_ne_nil _ _,
   claim8_population_size_restored id id [(1 : ℚ)] [] true (fun _ => 0) (fun _ => 0)
     (List.cons_ne_nil _ _)⟩

/-- C9 counterexample: a population of size 2 with `num_pairs = 2` makes the
pairing loop access `population[2]`, raising `IndexError` instead of
returning "up to `num_pairs`" couples. -/
theorem claim9_pairing_counterexample :
    (([(1 : ℚ), 2] : List ℚ).length = 2) ∧
    (BestFitnessMatingSelector.selectCouples id [(1 : ℚ), 2] 2 true).1 = none := by
  refine ⟨by decide, by decide⟩

/-- C9 amended: whenever `2 * num_pairs ≤ len(population)`,
`BestFitnessMatingSelector.select_couples` returns without error exactly
`num_pairs` couples, pairing consecutive entries of the population sorted by
fitness (direction-aware): couple `k` is `(sorted[2k], sorted[2k+1])`; a
population of size ≤ 1 yields the empty list.  (When `population` has at
least 2 elements but `2 * num_pairs > len(population)`, the loop instead
raises `IndexError`, as the counterexample shows.) -/
theorem claim9_pairing_amended {α : Type} (fit : α → ℚ) (population : List α)
    (numPairs : Nat) (maximizeFitness : Bool)
    (h : 2 * numPairs ≤ population.length) :
    (population.length ≤ 1 →
      (BestFitnessMatingSelector.selectCouples fit population numPairs
        maximizeFitness).1 = some []) ∧
    ∃ couples,
      (BestFitnessMatingSelector.selectCouples fit population numPairs
        maximizeFitness).1 = some couples ∧
      couples.length = numPairs ∧
      ∀ k, k < numPairs → ∃ a b,
        (pySort fit maximizeFitness population)[2 * k]? = some a ∧
        (pySort fit maximizeFitness population)[2 * k + 1]? = some b ∧
        couples[k]? = some (a, b) := by
  constructor
  · intro hle
    rw [BestFitnessMatingSelector.selectCouples]
    simp only [length_pySort]
    rw [if_pos hle]
  · obtain ⟨out, hout, hlen, hidx⟩ :=
      pairLoop_ok (pySort fit maximizeFitness population) numPairs 0
        (by rw [length_pySort]; omega)
    by_cases hle : population.length ≤ 1
    · have hnp : numPairs = 0 := by omega
      subst hnp
      refine ⟨[], ?_, rfl, fun k hk => absurd hk (by omega)⟩
      rw [BestFitnessMatingSelector.selectCouples]
      simp only [length_pySort]
      rw [if_pos hle]
    · refine ⟨out, ?_, hlen, fun k hk => by simpa using hidx k hk⟩
      rw [BestFitnessMatingSelector.selectCouples]
      simp only [length_pySort]
      rw [if_neg hle]
      exact hout

theorem claim9_pairing_amended_witness :
    (2 * 2 ≤ ([(1 : ℚ), 2, 3, 4] : List ℚ).length) ∧
    ((([(1 : ℚ), 2, 3, 4] : List ℚ).length ≤ 1 →
      (BestFitnessMatingSelector.selectCouples id [(1 : ℚ), 2, 3, 4] 2 true).1 = some []) ∧
    ∃ couples,
      (BestFitnessMatingSelector.selectCouples id [(1 : ℚ), 2, 3, 4] 2 true).1 =
        some couples ∧
      couples.length = 2 ∧
      ∀ k, k < 2 → ∃ a b,
        (pySort id true [(1 : ℚ), 2, 3, 4])[2 * k]? = some a ∧
        (pySort id true [(1 : ℚ), 2, 3, 4])[2 * k + 1]? = some b ∧
        couples[k]? = some (a, b)) :=
  ⟨by decide, claim9_pairing_amended id [(1 : ℚ), 2, 3, 4] 2 true (by decide)⟩

/-- C10: each of the four operations reorders the caller-supplied population
list in place and leaves it reordered: on the ascending-fitness population
`[1, 2]`, `Roulette.__init__` leaves it sorted descending, the archive
selector's `update_individuals` (maximizing) leaves it sorted descending,
`BestFitnessMatingSelector.select_couples` (maximizing) leaves it sorted
descending, and `BestFromRandomMatingSelector.select_couples` (with a random
stream whose first draw is 0) leaves it shuffled to `[2, 1]` — in every case
different from the original order. -/
theorem claim10_selectors_reorder_population :
    (Roulette.init id [(1 : ℚ), 2] false).2 ≠ [1, 2] ∧
    (KBestFitnessSolutionSelector.updateIndividuals id true 2 [] [(1 : ℚ), 2]).2 ≠ [1, 2] ∧
    (BestFitnessMatingSelector.selectCouples id [(1 : ℚ), 2] 1 true).2 ≠ [1, 2] ∧
    (BestFromRandomMatingSelector.selectCouples id [(1 : ℚ), 2] 1 true
      (fun _ _ => 0)).2 ≠ [1, 2] := by
  refine ⟨by decide, by decide, by decide, by decide⟩

end GF
